import Mathlib

/-!
Shallow embedding of the package-identity resolver of
`src/packages/views/display.py` (archweb): the functions
`split_package_details`, `recently_removed_package` and `details`,
together with the data model they query.

Conventions of the embedding:
* Database tables are lists; a Django `filter(...)` is `List.filter`,
  `get(...)` / `get_object_or_404(...)` is `djGet` below (exactly one
  row or an exception), `order_by('pkgname')` is a stable insertion sort
  on `pkgname`, `__iexact` is case-insensitive string equality.
* Timestamps are integers measured in days; `datetime.timedelta(days=60)`
  is the integer `60`.
* Raised exceptions (`Http404` from `get_object_or_404` and from
  `raise Http404`, `MultipleObjectsReturned` from `.get()`) are explicit
  `Outcome` values; stage functions that can both raise and return are
  `Except Outcome (Option Outcome)` where `.error` is a raised exception,
  `.ok none` is Python `None` and `.ok (some o)` is a returned response.
-/

/-- Modelled from the spec: `Architecture = {name, agnostic}` (the ORM model
`Arch` lives in `main/models.py`, which is not part of the source here). -/
structure Arch where
  name : String
  agnostic : Bool
deriving DecidableEq, Repr

/-- Modelled from the spec: `Repo = {name, testing, staging}` (the ORM model
`Repo` of `main/models.py` is not part of the source here). -/
structure Repo where
  name : String
  testing : Bool
  staging : Bool
deriving DecidableEq, Repr

/-- Modelled from the spec: `Package = {pkgname, pkgbase, repo, arch, ...}`,
belonging to exactly one `Repo` and one `Arch` (the ORM model of
`main/models.py` is not part of the source here). Only the fields the
resolver reads are kept. -/
structure Package where
  pkgname : String
  pkgbase : String
  repo : Repo
  arch : Arch
deriving DecidableEq, Repr

/-- Modelled from the spec: `UpdateRecord = {pkgname, repo, arch, created}`
plus a stable secondary key `id` used to break `created` ties
deterministically (the ORM model `Update` of `packages/models.py` is not
part of the source here). -/
structure Update where
  pkgname : String
  repo : Repo
  arch : Arch
  created : Int
  id : Nat
deriving DecidableEq, Repr

/-- The state of the two data sources: the `Arch`, `Repo` and `Package`
tables of the PackageCatalog and the `Update` table of PackageHistory. -/
structure DB where
  arches : List Arch
  repos : List Repo
  packages : List Package
  updates : List Update
deriving DecidableEq, Repr

/-- ASCII lowercasing of a string, as Python `str.lower()` / Django
`LOWER()` behave on the ASCII names involved here. -/
def lowerStr (s : String) : String :=
  String.mk (s.data.map Char.toLower)

/-- Django `__iexact`: case-insensitive string equality. -/
def iexact (a b : String) : Bool :=
  lowerStr a == lowerStr b

/-- Result of a Django `.get(...)` / `get_object_or_404(...)` call. -/
inductive GetResult (α : Type) where
  | missing
  | unique (a : α)
  | multiple
deriving DecidableEq, Repr

/-- Django `.get(...)`: exactly one matching row, else `DoesNotExist`
(`missing`) or `MultipleObjectsReturned` (`multiple`). -/
def djGet {α : Type} (l : List α) (p : α → Bool) : GetResult α :=
  match l.filter p with
  | [] => .missing
  | [a] => .unique a
  | _ :: _ :: _ => .multiple

/-- The resolution outcome: the six spec variants plus the exceptional
exits of the source (`Http404` raised by `get_object_or_404(Arch, ...)`,
by `get_object_or_404(Repo, ...)`, and `MultipleObjectsReturned`). All
three 404-flavoured variants render as HTTP 404 but are raised at
distinct sites with distinct messages. -/
inductive Outcome where
  | found (p : Package)
  | redirectCanonical (p : Package)
  | splitListing (name : String) (arch : Arch) (pkgs : List Package)
  | removed (u : Update)
  | searchRedirect (query : List (String × String))
  | archNotFound
  | repoNotFound
  | notFound
  | multipleObjects
deriving DecidableEq, Repr

/-- `CUTOFF = datetime.timedelta(days=60)` (display.py line 40),
measured in days. -/
def CUTOFF : Int := 60

/-- Lexicographic less-or-equal on character lists, the ordering used by
`order_by('pkgname')` on the ASCII package names involved. -/
def lexLE : List Char → List Char → Bool
  | [], _ => true
  | _ :: _, [] => false
  | a :: as, b :: bs =>
    if a < b then true else if b < a then false else lexLE as bs

theorem lexLE_total : ∀ a b : List Char, lexLE a b = true ∨ lexLE b a = true
  | [], _ => Or.inl rfl
  | _ :: _, [] => Or.inr rfl
  | a :: as, b :: bs => by
    by_cases hab : a < b
    · left; simp [lexLE, hab]
    · by_cases hba : b < a
      · right; simp [lexLE, hba]
      · rcases lexLE_total as bs with h | h
        · left; simp [lexLE, hab, hba, h]
        · right; simp [lexLE, hab, hba, h]

theorem lexLE_trans :
    ∀ a b c : List Char, lexLE a b = true → lexLE b c = true → lexLE a c = true
  | [], _, _ => fun _ _ => rfl
  | _ :: _, [], _ => by intro h; simp [lexLE] at h
  | _ :: _, _ :: _, [] => by intro _ h; simp [lexLE] at h
  | a :: as, b :: bs, c :: cs => by
    intro h1 h2
    by_cases hab : a < b
    · by_cases hbc : b < c
      · simp [lexLE, lt_trans hab hbc]
      · by_cases hcb : c < b
        · simp [lexLE, hbc, hcb] at h2
        · have hbc' : b = c := le_antisymm (le_of_not_lt hcb) (le_of_not_lt hbc)
          simp [lexLE, hbc' ▸ hab]
    · by_cases hba : b < a
      · simp [lexLE, hab, hba] at h1
      · have hab' : a = b := le_antisymm (le_of_not_lt hba) (le_of_not_lt hab)
        subst hab'
        by_cases hac : a < c
        · simp [lexLE, hac]
        · by_cases hca : c < a
          · simp [lexLE, hac, hca] at h2
          · simp [lexLE, hab, hba] at h1
            simp [lexLE, hac, hca] at h2 ⊢
            exact lexLE_trans as bs cs h1 h2

/-- The `order_by('pkgname')` ordering: ascending package name. -/
def pkgnameLE (p q : Package) : Prop :=
  lexLE p.pkgname.data q.pkgname.data = true

instance : DecidableRel pkgnameLE :=
  fun p q => inferInstanceAs (Decidable (lexLE p.pkgname.data q.pkgname.data = true))

instance : IsTotal Package pkgnameLE :=
  ⟨fun p q => lexLE_total p.pkgname.data q.pkgname.data⟩

instance : IsTrans Package pkgnameLE :=
  ⟨fun _ _ _ h h' => lexLE_trans _ _ _ h h'⟩

/-- The row predicate of the Stage-1 exact lookup
`Package.objects.get(pkgname=name, repo__name__iexact=repo,
arch__name=arch)` (display.py lines 67-69). -/
def stage1Match (name repoName archName : String) (p : Package) : Bool :=
  p.pkgname == name && iexact p.repo.name repoName && p.arch.name == archName

/-- The row predicate of `Arch.objects.get(name=arch)` as issued by
`get_object_or_404(Arch, name=arch)` (display.py lines 18, 48, 73). -/
def archNameMatch (archName : String) (a : Arch) : Bool :=
  a.name == archName

/-- The row predicate of the Stage-2 agnostic-package query
`Package.objects.filter(pkgname=name, repo__name__iexact=repo,
arch__agnostic=True)` (display.py lines 78-80). -/
def agnosticMatch (name repoName : String) (p : Package) : Bool :=
  p.pkgname == name && iexact p.repo.name repoName && p.arch.agnostic

/-- The row predicate of `get_object_or_404(Repo, name__iexact=repo)`
(display.py line 21). -/
def repoNameMatch (repoName : String) (r : Repo) : Bool :=
  iexact r.name repoName

/-- `arches = [arch]; arches.extend(Arch.objects.filter(agnostic=True))`
(display.py lines 19-20, 49-50): the requested architecture plus every
agnostic architecture. -/
def archSet (db : DB) (arch : Arch) : List Arch :=
  arch :: db.arches.filter (fun a => a.agnostic)

/-- The row predicate of the Stage-3 split-package query
`Package.objects.normal().filter(pkgbase=name, repo__testing=repo.testing,
repo__staging=repo.staging, arch__in=arches)` (display.py lines 22-24). -/
def splitMatch (name : String) (repo : Repo) (arches : List Arch)
    (p : Package) : Bool :=
  p.pkgbase == name &&
  p.repo.testing == repo.testing && p.repo.staging == repo.staging &&
  arches.contains p.arch

/-- The row predicate of the Stage-4 history query
`Update.objects.filter(pkgname=name, repo__name__iexact=repo,
arch__in=arches)` (display.py lines 51-52). -/
def updateMatch (name repoName : String) (arches : List Arch)
    (u : Update) : Bool :=
  u.pkgname == name && iexact u.repo.name repoName && arches.contains u.arch

/-- The better of two updates under Django `latest()` ordering: larger
`created`, ties broken by the stable secondary key `id`. -/
def betterUpdate (u v : Update) : Update :=
  if v.created > u.created ∨ (v.created = u.created ∧ v.id > u.id) then v else u

/-- Modelled from the spec: Django `queryset.latest()` on `Update` uses the
model's `get_latest_by` metadata, which is in `packages/models.py`, not in
the source here; the spec says it selects the record with the latest
`created` timestamp, ties broken deterministically by a stable secondary
key. Returns `none` exactly when the queryset is empty
(`Update.DoesNotExist`). -/
def latestUpdate : List Update → Option Update
  | [] => none
  | u :: us => some (us.foldl betterUpdate u)

/-- The Stage-3 queryset: packages matching the split-package predicate,
ordered by package name ascending (display.py lines 22-24). -/
def splitPkgs (db : DB) (name : String) (repo : Repo) (arch : Arch) :
    List Package :=
  (db.packages.filter (splitMatch name repo (archSet db arch))).insertionSort
    pkgnameLE

/-- `split_package_details` (display.py lines 17-37). `.error` is a raised
`Http404`, `.ok none` is `return None`, `.ok (some o)` is a rendered
split-package listing. `Package.objects.normal()` only prefetches related
rows and filters nothing. -/
def split_package_details (db : DB) (name repoName archName : String) :
    Except Outcome (Option Outcome) :=
  match djGet db.arches (archNameMatch archName) with
  | .missing => .error .archNotFound
  | .multiple => .error .multipleObjects
  | .unique arch =>
    match djGet db.repos (repoNameMatch repoName) with
    | .missing => .error .repoNotFound
    | .multiple => .error .multipleObjects
    | .unique repo =>
      if (splitPkgs db name repo arch).isEmpty then .ok none
      else if !(splitPkgs db name repo arch).any (fun p => p.repo == repo)
        then .ok none
      else .ok (some (.splitListing name arch (splitPkgs db name repo arch)))

/-- The Stage-4 queryset (display.py lines 51-55): history records
matching the update predicate, restricted to `created ≥ now - cutoff`
when a cutoff is given; `cutoff = none` models the Python `cutoff=None`
call that disables the time filter. -/
def updatesWindow (db : DB) (nowT : Int) (name repoName : String)
    (arch : Arch) (cutoff : Option Int) : List Update :=
  match cutoff with
  | some c =>
    (db.updates.filter (updateMatch name repoName (archSet db arch))).filter
      (fun u => nowT - c ≤ u.created)
  | none => db.updates.filter (updateMatch name repoName (archSet db arch))

/-- `recently_removed_package` (display.py lines 43-61). `.error` is a
raised `Http404`, `.ok none` is `return None` (the `Update.DoesNotExist`
branch), `.ok (some o)` is the 410 "removed" page. -/
def recently_removed_package (db : DB) (nowT : Int)
    (name repoName archName : String) (cutoff : Option Int) :
    Except Outcome (Option Outcome) :=
  match djGet db.arches (archNameMatch archName) with
  | .missing => .error .archNotFound
  | .multiple => .error .multipleObjects
  | .unique arch =>
    match latestUpdate (updatesWindow db nowT name repoName arch cutoff) with
    | some u => .ok (some (.removed u))
    | none => .ok none

/-- The fallback tail of `details` (display.py lines 83-92): try the split
package page, then the recently-removed page, else `raise Http404`.
Exceptions raised inside either helper propagate out unchanged. -/
def fallbackChain (db : DB) (nowT : Int) (name repoName archName : String) :
    Outcome :=
  match split_package_details db name repoName archName with
  | .error o => o
  | .ok (some r) => r
  | .ok none =>
    match recently_removed_package db nowT name repoName archName
        (some CUTOFF) with
    | .error o => o
    | .ok (some r) => r
    | .ok none => .notFound

/-- `details` (display.py lines 64-101), the resolver entry point. -/
def details (db : DB) (nowT : Int) (name repoName archName : String) :
    Outcome :=
  if name ≠ "" ∧ repoName ≠ "" ∧ archName ≠ "" then
    match djGet db.packages (stage1Match name repoName archName) with
    | .unique pkg => .found pkg
    | .multiple => .multipleObjects
    | .missing =>
      match djGet db.arches (archNameMatch archName) with
      | .missing => .archNotFound
      | .multiple => .multipleObjects
      | .unique archObj =>
        if !archObj.agnostic then
          match db.packages.filter (agnosticMatch name repoName) with
          | [p] => .redirectCanonical p
          | _ => fallbackChain db nowT name repoName archName
        else fallbackChain db nowT name repoName archName
  else
    .searchRedirect
      ([("arch", lowerStr archName), ("repo", lowerStr repoName),
        ("q", name)].filter (fun x => x.2 ≠ ""))

/-! ### Helper lemmas about the query primitives -/

theorem lowerStr_empty : lowerStr ("") = "" := rfl

theorem lowerStr_eq_empty_iff (s : String) : lowerStr s = "" ↔ s = "" := by
  constructor
  · intro h
    have hd : s.data.map Char.toLower = [] := by
      have := congrArg String.data h
      simpa [lowerStr] using this
    have : s.data = [] := List.map_eq_nil_iff.mp hd
    cases s
    simp_all [String.ext_iff]
  · rintro rfl; rfl

theorem djGet_of_filter_eq_single {α : Type} (l : List α) (p : α → Bool)
    (a : α) (h : l.filter p = [a]) : djGet l p = .unique a := by
  unfold djGet; rw [h]

theorem djGet_of_filter_eq_nil {α : Type} (l : List α) (p : α → Bool)
    (h : l.filter p = []) : djGet l p = .missing := by
  unfold djGet; rw [h]

theorem filter_eq_single_of_djGet_unique {α : Type} {l : List α}
    {p : α → Bool} {a : α} (h : djGet l p = .unique a) : l.filter p = [a] := by
  unfold djGet at h
  rcases hf : l.filter p with _ | ⟨x, _ | ⟨y, t⟩⟩ <;> rw [hf] at h <;>
    simp_all

/-! ### Helper lemmas about `latestUpdate` -/

theorem betterUpdate_eq_or (u v : Update) :
    betterUpdate u v = u ∨ betterUpdate u v = v := by
  unfold betterUpdate; split <;> simp

theorem created_le_betterUpdate_left (u v : Update) :
    u.created ≤ (betterUpdate u v).created := by
  unfold betterUpdate
  split
  · next h => rcases h with h | ⟨h, _⟩ <;> omega
  · exact le_refl _

theorem created_le_betterUpdate_right (u v : Update) :
    v.created ≤ (betterUpdate u v).created := by
  unfold betterUpdate
  split
  · exact le_refl _
  · next h =>
    push_neg at h
    exact h.1

theorem foldl_betterUpdate_mem :
    ∀ (us : List Update) (u : Update),
      us.foldl betterUpdate u = u ∨ us.foldl betterUpdate u ∈ us
  | [], _ => Or.inl rfl
  | v :: vs, u => by
    simp only [List.foldl_cons]
    rcases foldl_betterUpdate_mem vs (betterUpdate u v) with h | h
    · rcases betterUpdate_eq_or u v with h2 | h2
      · left; rw [h, h2]
      · right; rw [h, h2]; exact List.mem_cons_self _ _
    · right; exact List.mem_cons_of_mem _ h

theorem created_le_foldl_init :
    ∀ (us : List Update) (u : Update),
      u.created ≤ (us.foldl betterUpdate u).created
  | [], _ => le_refl _
  | v :: vs, u =>
    le_trans (created_le_betterUpdate_left u v) (created_le_foldl_init vs _)

theorem created_le_foldl_mem :
    ∀ (us : List Update) (u v : Update), v ∈ us →
      v.created ≤ (us.foldl betterUpdate u).created
  | w :: ws, u, v, h => by
    simp only [List.foldl_cons]
    rcases List.mem_cons.mp h with rfl | h2
    · exact le_trans (created_le_betterUpdate_right u v)
        (created_le_foldl_init ws _)
    · exact created_le_foldl_mem ws _ v h2

theorem latestUpdate_mem {l : List Update} {u : Update}
    (h : latestUpdate l = some u) : u ∈ l := by
  cases l with
  | nil => simp [latestUpdate] at h
  | cons v vs =>
    simp only [latestUpdate, Option.some.injEq] at h
    rcases foldl_betterUpdate_mem vs v with h2 | h2
    · rw [← h, h2]; exact List.mem_cons_self _ _
    · rw [← h]; exact List.mem_cons_of_mem _ h2

theorem latestUpdate_maximal {l : List Update} {u : Update}
    (h : latestUpdate l = some u) : ∀ v ∈ l, v.created ≤ u.created := by
  cases l with
  | nil => simp [latestUpdate] at h
  | cons w ws =>
    simp only [latestUpdate, Option.some.injEq] at h
    intro v hv
    rcases List.mem_cons.mp hv with rfl | h2
    · rw [← h]; exact created_le_foldl_init ws v
    · rw [← h]; exact created_le_foldl_mem ws w v h2

theorem latestUpdate_eq_none_iff (l : List Update) :
    latestUpdate l = none ↔ l = [] := by
  cases l <;> simp [latestUpdate]

theorem latestUpdate_exists_of_ne_nil {l : List Update} (h : l ≠ []) :
    ∃ u, latestUpdate l = some u := by
  cases l with
  | nil => exact absurd rfl h
  | cons v vs => exact ⟨_, rfl⟩

/-! ### Shape lemmas: which outcomes each stage can produce -/

theorem split_package_details_shape (db : DB) (name repoName archName : String) :
    split_package_details db name repoName archName = .error .archNotFound ∨
    split_package_details db name repoName archName = .error .repoNotFound ∨
    split_package_details db name repoName archName = .error .multipleObjects ∨
    split_package_details db name repoName archName = .ok none ∨
    ∃ ar pk, split_package_details db name repoName archName =
      .ok (some (.splitListing name ar pk)) := by
  unfold split_package_details
  split
  · simp
  · simp
  · split
    · simp
    · simp
    · split
      · simp
      · split <;> simp

theorem recently_removed_package_shape (db : DB) (nowT : Int)
    (name repoName archName : String) (cutoff : Option Int) :
    recently_removed_package db nowT name repoName archName cutoff =
      .error .archNotFound ∨
    recently_removed_package db nowT name repoName archName cutoff =
      .error .multipleObjects ∨
    recently_removed_package db nowT name repoName archName cutoff = .ok none ∨
    ∃ u, recently_removed_package db nowT name repoName archName cutoff =
      .ok (some (.removed u)) := by
  unfold recently_removed_package
  split
  · simp
  · simp
  · split <;> simp

theorem fallbackChain_shape (db : DB) (nowT : Int)
    (name repoName archName : String) :
    fallbackChain db nowT name repoName archName = .archNotFound ∨
    fallbackChain db nowT name repoName archName = .repoNotFound ∨
    fallbackChain db nowT name repoName archName = .multipleObjects ∨
    fallbackChain db nowT name repoName archName = .notFound ∨
    (∃ ar pk, fallbackChain db nowT name repoName archName =
      .splitListing name ar pk) ∨
    ∃ u, fallbackChain db nowT name repoName archName = .removed u := by
  unfold fallbackChain
  rcases split_package_details_shape db name repoName archName with
    h | h | h | h | ⟨ar, pk, h⟩ <;> rw [h]
  · simp
  · simp
  · simp
  · rcases recently_removed_package_shape db nowT name repoName archName
      (some CUTOFF) with h2 | h2 | h2 | ⟨u, h2⟩ <;> rw [h2] <;> simp
  · simp

theorem fallbackChain_ne_found (db : DB) (nowT : Int)
    (name repoName archName : String) (p : Package) :
    fallbackChain db nowT name repoName archName ≠ .found p := by
  rcases fallbackChain_shape db nowT name repoName archName with
    h | h | h | h | ⟨ar, pk, h⟩ | ⟨u, h⟩ <;> rw [h] <;> simp

theorem fallbackChain_ne_redirect (db : DB) (nowT : Int)
    (name repoName archName : String) (p : Package) :
    fallbackChain db nowT name repoName archName ≠ .redirectCanonical p := by
  rcases fallbackChain_shape db nowT name repoName archName with
    h | h | h | h | ⟨ar, pk, h⟩ | ⟨u, h⟩ <;> rw [h] <;> simp

/-- Under the hypotheses that Stage 1 misses, the architecture resolves
uniquely and Stage 2 does not produce a unique agnostic match, `details`
runs the fallback tail (split package page, then recently-removed page,
then `Http404`). -/
theorem details_eq_fallbackChain (db : DB) (nowT : Int)
    (name repoName archName : String) (a : Arch)
    (hn : name ≠ "") (hr : repoName ≠ "") (ha : archName ≠ "")
    (h1 : db.packages.filter (stage1Match name repoName archName) = [])
    (hA : db.arches.filter (archNameMatch archName) = [a])
    (h2 : a.agnostic = true ∨
      (db.packages.filter (agnosticMatch name repoName)).length ≠ 1) :
    details db nowT name repoName archName =
      fallbackChain db nowT name repoName archName := by
  unfold details
  rw [if_pos ⟨hn, hr, ha⟩, djGet_of_filter_eq_nil _ _ h1,
    djGet_of_filter_eq_single _ _ _ hA]
  rcases h2 with h2 | h2
  · simp [h2]
  · rcases hl : db.packages.filter (agnosticMatch name repoName) with
      _ | ⟨x, _ | ⟨y, t⟩⟩
    · simp
    · rw [hl] at h2; simp at h2
    · simp

/-! ### Claim theorems -/

/-- C1: for every lookup key with non-empty name, repo and arch for which
the catalog holds exactly one package matching the name exactly, the repo
case-insensitively and the arch exactly, `details` returns `Found` with
that package, whatever the contents of the history table or any other
catalog rows. -/
theorem c1_exact_match_found (db : DB) (nowT : Int)
    (name repoName archName : String) (pkg : Package)
    (hn : name ≠ "") (hr : repoName ≠ "") (ha : archName ≠ "")
    (h1 : db.packages.filter (stage1Match name repoName archName) = [pkg]) :
    details db nowT name repoName archName = .found pkg := by
  unfold details
  rw [if_pos ⟨hn, hr, ha⟩, djGet_of_filter_eq_single _ _ _ h1]

/-- Witness for C1: a one-package catalog, queried with a repo name of
different case, resolves to that package even though a matching history
record exists. -/
theorem c1_witness :
    details
      ⟨[⟨"x86_64", false⟩], [⟨"core", false, false⟩],
       [⟨"foo", "foo", ⟨"core", false, false⟩, ⟨"x86_64", false⟩⟩],
       [⟨"foo", ⟨"core", false, false⟩, ⟨"x86_64", false⟩, -1, 0⟩]⟩
      0 ("foo") ("Core") ("x86_64") =
      .found ⟨"foo", "foo", ⟨"core", false, false⟩, ⟨"x86_64", false⟩⟩ :=
  c1_exact_match_found _ 0 _ _ _ _ (by decide) (by decide) (by decide)
    (by decide)

/-- C2: on a Stage-1 miss with a valid, non-agnostic requested
architecture, if exactly one package matches the name, the repo
(case-insensitively) and any agnostic architecture, `details` returns a
permanent redirect to that package itself (whose architecture is
agnostic, i.e. the package's own canonical identity, not the requested
arch). -/
theorem c2_agnostic_redirect (db : DB) (nowT : Int)
    (name repoName archName : String) (a : Arch) (q : Package)
    (hn : name ≠ "") (hr : repoName ≠ "") (ha : archName ≠ "")
    (h1 : db.packages.filter (stage1Match name repoName archName) = [])
    (hA : db.arches.filter (archNameMatch archName) = [a])
    (hag : a.agnostic = false)
    (h2 : db.packages.filter (agnosticMatch name repoName) = [q]) :
    details db nowT name repoName archName = .redirectCanonical q ∧
    q.arch.agnostic = true := by
  constructor
  · unfold details
    rw [if_pos ⟨hn, hr, ha⟩, djGet_of_filter_eq_nil _ _ h1,
      djGet_of_filter_eq_single _ _ _ hA]
    simp [hag, h2]
  · have hq : q ∈ db.packages.filter (agnosticMatch name repoName) := by
      rw [h2]; exact List.mem_singleton_self _
    have := (List.mem_filter.mp hq).2
    simp only [agnosticMatch, Bool.and_eq_true] at this
    exact this.2

/-- Witness for C2: the package exists only under the agnostic arch
"any"; a lookup with requested arch "x86_64" yields the permanent
redirect to the "any" package. -/
theorem c2_witness :
    details
      ⟨[⟨"any", true⟩, ⟨"x86_64", false⟩], [⟨"extra", false, false⟩],
       [⟨"foo", "foo", ⟨"extra", false, false⟩, ⟨"any", true⟩⟩], []⟩
      0 ("foo") ("extra") ("x86_64") =
      .redirectCanonical
        ⟨"foo", "foo", ⟨"extra", false, false⟩, ⟨"any", true⟩⟩ ∧
    (⟨"foo", "foo", ⟨"extra", false, false⟩, ⟨"any", true⟩⟩ :
      Package).arch.agnostic = true :=
  c2_agnostic_redirect _ 0 _ _ _ ⟨"x86_64", false⟩ _ (by decide) (by decide)
    (by decide) (by decide) (by decide) (by decide) (by decide)

/-- C5: for every key with at least one blank field, `details` returns a
`SearchFallback` redirect, and its outcome is identical for any two
states of the data sources and the clock (so no data-source query can
influence it). -/
theorem c5_blank_search_fallback (db db' : DB) (nowT nowT' : Int)
    (name repoName archName : String)
    (h : name = "" ∨ repoName = "" ∨ archName = "") :
    (∃ q, details db nowT name repoName archName = .searchRedirect q) ∧
    details db nowT name repoName archName =
      details db' nowT' name repoName archName := by
  have hc : ¬(name ≠ "" ∧ repoName ≠ "" ∧ archName ≠ "") := by tauto
  unfold details
  rw [if_neg hc, if_neg hc]
  exact ⟨⟨_, rfl⟩, rfl⟩

/-- Witness for C5: a key with a blank repo gives the search redirect on
two very different database states. -/
theorem c5_witness :
    (∃ q, details ⟨[], [], [], []⟩ 0 ("foo") ("") ("x86_64") =
      .searchRedirect q) ∧
    details ⟨[], [], [], []⟩ 0 ("foo") ("") ("x86_64") =
      details
        ⟨[⟨"any", true⟩], [⟨"core", false, false⟩],
         [⟨"foo", "foo", ⟨"core", false, false⟩, ⟨"any", true⟩⟩],
         [⟨"foo", ⟨"core", false, false⟩, ⟨"any", true⟩, 0, 0⟩]⟩
        7 ("foo") ("") ("x86_64") :=
  c5_blank_search_fallback _ _ 0 7 _ _ _ (Or.inr (Or.inl rfl))

/-- C7: on a Stage-1 miss, a requested architecture name that matches no
catalog architecture yields the invalid-architecture error (the `Http404`
of `get_object_or_404(Arch, ...)`), an outcome distinct from the final
not-found exit, whatever split-package or history data exist. -/
theorem c7_invalid_architecture (db : DB) (nowT : Int)
    (name repoName archName : String)
    (hn : name ≠ "") (hr : repoName ≠ "") (ha : archName ≠ "")
    (h1 : db.packages.filter (stage1Match name repoName archName) = [])
    (hA : db.arches.filter (archNameMatch archName) = []) :
    details db nowT name repoName archName = .archNotFound ∧
    Outcome.archNotFound ≠ Outcome.notFound := by
  refine ⟨?_, by simp⟩
  unfold details
  rw [if_pos ⟨hn, hr, ha⟩, djGet_of_filter_eq_nil _ _ h1,
    djGet_of_filter_eq_nil _ _ hA]

/-- Witness for C7: arch "sparc" does not exist; the lookup errors with
the invalid-architecture 404 even though a split-package row and a fresh
history record for the same name and repo exist. -/
theorem c7_witness :
    details
      ⟨[⟨"x86_64", false⟩], [⟨"core", false, false⟩],
       [⟨"foo-a", "foo", ⟨"core", false, false⟩, ⟨"x86_64", false⟩⟩],
       [⟨"foo", ⟨"core", false, false⟩, ⟨"x86_64", false⟩, 0, 0⟩]⟩
      0 ("foo") ("core") ("sparc") = .archNotFound ∧
    Outcome.archNotFound ≠ Outcome.notFound :=
  c7_invalid_architecture _ 0 _ _ _ (by decide) (by decide) (by decide)
    (by decide) (by decide)

/-- C10: for every key with a blank field, the generated search query
lowercases the repo and arch values, keeps the name's case unchanged, and
contains exactly the non-blank fields in the fixed order arch, repo,
name. -/
theorem c10_search_query_shape (db : DB) (nowT : Int)
    (name repoName archName : String)
    (h : name = "" ∨ repoName = "" ∨ archName = "") :
    details db nowT name repoName archName = .searchRedirect
      ((if archName = "" then [] else [("arch", lowerStr archName)]) ++
       (if repoName = "" then [] else [("repo", lowerStr repoName)]) ++
       (if name = "" then [] else [("q", name)])) := by
  have hc : ¬(name ≠ "" ∧ repoName ≠ "" ∧ archName ≠ "") := by tauto
  unfold details
  rw [if_neg hc]
  congr 1
  rcases eq_or_ne archName "" with hA | hA <;>
    rcases eq_or_ne repoName "" with hR | hR <;>
      rcases eq_or_ne name "" with hN | hN <;>
        simp [hA, hR, hN, List.filter_cons, List.filter_nil,
          lowerStr_eq_empty_iff, lowerStr_empty]

/-- Witness for C10: blank name; arch has mixed case and is lowercased,
the blank name entry is dropped, order is arch then repo. -/
theorem c10_witness :
    details ⟨[], [], [], []⟩ 0 ("") ("Core") ("X86_64") = .searchRedirect
      ((if ("X86_64" : String) = "" then []
          else [(("arch" : String), lowerStr ("X86_64"))]) ++
       (if ("Core" : String) = "" then []
          else [(("repo" : String), lowerStr ("Core"))]) ++
       (if ("" : String) = "" then [] else [(("q" : String), ("" : String))])) :=
  c10_search_query_shape _ 0 _ _ _ (Or.inl rfl)

/-- C6: on a Stage-1 miss with a valid non-agnostic architecture, if the
number of agnostic-architecture matches is not exactly one, `details`
never returns `RedirectCanonical` and instead runs the split-package /
recently-removed / not-found fallback tail. -/
theorem c6_ambiguous_no_redirect (db : DB) (nowT : Int)
    (name repoName archName : String) (a : Arch)
    (hn : name ≠ "") (hr : repoName ≠ "") (ha : archName ≠ "")
    (h1 : db.packages.filter (stage1Match name repoName archName) = [])
    (hA : db.arches.filter (archNameMatch archName) = [a])
    (hag : a.agnostic = false)
    (h2 : (db.packages.filter (agnosticMatch name repoName)).length ≠ 1) :
    details db nowT name repoName archName =
      fallbackChain db nowT name repoName archName ∧
    ∀ p : Package,
      details db nowT name repoName archName ≠ .redirectCanonical p := by
  have heq := details_eq_fallbackChain db nowT name repoName archName a
    hn hr ha h1 hA (Or.inr h2)
  refine ⟨heq, fun p => ?_⟩
  rw [heq]
  exact fallbackChain_ne_redirect db nowT name repoName archName p

/-- Witness for C6: two packages named "foo" under two distinct agnostic
architectures; the lookup for arch "x86_64" does not redirect and falls
through to the chain tail. -/
theorem c6_witness :
    details
      ⟨[⟨"any", true⟩, ⟨"anyother", true⟩, ⟨"x86_64", false⟩],
       [⟨"extra", false, false⟩],
       [⟨"foo", "foo", ⟨"extra", false, false⟩, ⟨"any", true⟩⟩,
        ⟨"foo", "foo", ⟨"extra", false, false⟩, ⟨"anyother", true⟩⟩], []⟩
      0 ("foo") ("extra") ("x86_64") =
      fallbackChain
        ⟨[⟨"any", true⟩, ⟨"anyother", true⟩, ⟨"x86_64", false⟩],
         [⟨"extra", false, false⟩],
         [⟨"foo", "foo", ⟨"extra", false, false⟩, ⟨"any", true⟩⟩,
          ⟨"foo", "foo", ⟨"extra", false, false⟩, ⟨"anyother", true⟩⟩], []⟩
        0 ("foo") ("extra") ("x86_64") ∧
    details
      ⟨[⟨"any", true⟩, ⟨"anyother", true⟩, ⟨"x86_64", false⟩],
       [⟨"extra", false, false⟩],
       [⟨"foo", "foo", ⟨"extra", false, false⟩, ⟨"any", true⟩⟩,
        ⟨"foo", "foo", ⟨"extra", false, false⟩, ⟨"anyother", true⟩⟩], []⟩
      0 ("foo") ("extra") ("x86_64") ≠
      .redirectCanonical
        ⟨"foo", "foo", ⟨"extra", false, false⟩, ⟨"any", true⟩⟩ :=
  ⟨(c6_ambiguous_no_redirect _ 0 _ _ _ ⟨"x86_64", false⟩ (by decide)
      (by decide) (by decide) (by decide) (by decide) (by decide)
      (by decide)).1,
   (c6_ambiguous_no_redirect _ 0 _ _ _ ⟨"x86_64", false⟩ (by decide)
      (by decide) (by decide) (by decide) (by decide) (by decide)
      (by decide)).2 _⟩

/-- If the Stage-3 queryset is non-empty and some member sits in the
resolved repo, `split_package_details` returns the listing. -/
theorem split_package_details_eq_listing (db : DB)
    (name repoName archName : String) (a : Arch) (r : Repo)
    (hA : db.arches.filter (archNameMatch archName) = [a])
    (hR : db.repos.filter (repoNameMatch repoName) = [r])
    (hne : splitPkgs db name r a ≠ [])
    (hex : ∃ q ∈ splitPkgs db name r a, q.repo = r) :
    split_package_details db name repoName archName =
      .ok (some (.splitListing name a (splitPkgs db name r a))) := by
  unfold split_package_details
  rw [djGet_of_filter_eq_single _ _ _ hA, djGet_of_filter_eq_single _ _ _ hR]
  have hie : (splitPkgs db name r a).isEmpty = false :=
    List.isEmpty_eq_false.mpr hne
  have hany : (splitPkgs db name r a).any (fun p => p.repo == r) = true := by
    rcases hex with ⟨q, hq, he⟩
    exact List.any_eq_true.mpr ⟨q, hq, by simp [he]⟩
  simp [hie, hany]

/-- If the Stage-3 queryset is empty, or no member sits in the resolved
repo, `split_package_details` returns `None`. -/
theorem split_package_details_eq_none (db : DB)
    (name repoName archName : String) (a : Arch) (r : Repo)
    (hA : db.arches.filter (archNameMatch archName) = [a])
    (hR : db.repos.filter (repoNameMatch repoName) = [r])
    (h : splitPkgs db name r a = [] ∨
      ∀ q ∈ splitPkgs db name r a, q.repo ≠ r) :
    split_package_details db name repoName archName = .ok none := by
  unfold split_package_details
  rw [djGet_of_filter_eq_single _ _ _ hA, djGet_of_filter_eq_single _ _ _ hR]
  rcases h with h | h
  · simp [h]
  · have hany : (splitPkgs db name r a).any (fun p => p.repo == r) = false := by
      rw [Bool.eq_false_iff]
      intro hc
      rcases List.any_eq_true.mp hc with ⟨q, hq, he⟩
      exact h q hq (by simpa using he)
    by_cases hie : (splitPkgs db name r a).isEmpty
    · simp [hie]
    · simp [hie, hany]

/-- C3: on reaching Stage 3, the split stage matches the lookup name
against `pkgbase`, restricts repos to those sharing the requested repo's
(testing, staging) pair, restricts architectures to the requested one
plus all agnostic ones, and returns the name-ascending listing iff the
match set is non-empty and contains a package of exactly the resolved
repo; otherwise resolution falls through to the Stage-4 history check. -/
theorem c3_split_stage (db : DB) (nowT : Int)
    (name repoName archName : String) (a : Arch) (r : Repo)
    (hn : name ≠ "") (hr : repoName ≠ "") (ha : archName ≠ "")
    (h1 : db.packages.filter (stage1Match name repoName archName) = [])
    (hA : db.arches.filter (archNameMatch archName) = [a])
    (h2 : a.agnostic = true ∨
      (db.packages.filter (agnosticMatch name repoName)).length ≠ 1)
    (hR : db.repos.filter (repoNameMatch repoName) = [r]) :
    (∀ q : Package, q ∈ splitPkgs db name r a ↔
      q ∈ db.packages ∧ q.pkgbase = name ∧
      q.repo.testing = r.testing ∧ q.repo.staging = r.staging ∧
      (q.arch = a ∨ (q.arch ∈ db.arches ∧ q.arch.agnostic = true))) ∧
    List.Sorted pkgnameLE (splitPkgs db name r a) ∧
    (splitPkgs db name r a ≠ [] ∧ (∃ q ∈ splitPkgs db name r a, q.repo = r) →
      details db nowT name repoName archName =
        .splitListing name a (splitPkgs db name r a)) ∧
    (splitPkgs db name r a = [] ∨ (∀ q ∈ splitPkgs db name r a, q.repo ≠ r) →
      details db nowT name repoName archName =
        match recently_removed_package db nowT name repoName archName
            (some CUTOFF) with
        | .error o => o
        | .ok (some o) => o
        | .ok none => .notFound) := by
  have hfb := details_eq_fallbackChain db nowT name repoName archName a
    hn hr ha h1 hA h2
  refine ⟨?_, ?_, ?_, ?_⟩
  · intro q
    simp only [splitPkgs, List.mem_insertionSort, List.mem_filter,
      splitMatch, archSet, Bool.and_eq_true, beq_iff_eq,
      List.contains_eq_any_beq, List.any_eq_true, List.mem_cons,
      List.mem_filter]
    constructor
    · rintro ⟨hmem, ⟨⟨hb, ht⟩, hs⟩, x, hx, hbeq⟩
      have hx' : q.arch = x := by simpa using hbeq
      rcases hx with hx | hx
      · exact ⟨hmem, hb, ht, hs, Or.inl (hx' ▸ hx)⟩
      · exact ⟨hmem, hb, ht, hs,
          Or.inr ⟨hx' ▸ hx.1, hx' ▸ hx.2⟩⟩
    · rintro ⟨hmem, hb, ht, hs, harch⟩
      refine ⟨hmem, ⟨⟨hb, ht⟩, hs⟩, q.arch, ?_, by simp⟩
      rcases harch with harch | harch
      · exact Or.inl harch
      · exact Or.inr ⟨harch.1, harch.2⟩
  · exact List.sorted_insertionSort pkgnameLE _
  · rintro ⟨hne, hex⟩
    rw [hfb]
    unfold fallbackChain
    rw [split_package_details_eq_listing db name repoName archName a r
      hA hR hne hex]
  · intro h
    rw [hfb]
    unfold fallbackChain
    rw [split_package_details_eq_none db name repoName archName a r hA hR h]

/-- Witness for C3: pkgbase "foo" groups "foo-a" and "foo-b" in the
requested repo; the result is the listing ordered by name ascending. -/
theorem c3_witness :
    details
      ⟨[⟨"x86_64", false⟩], [⟨"core", false, false⟩],
       [⟨"foo-b", "foo", ⟨"core", false, false⟩, ⟨"x86_64", false⟩⟩,
        ⟨"foo-a", "foo", ⟨"core", false, false⟩, ⟨"x86_64", false⟩⟩], []⟩
      0 ("foo") ("core") ("x86_64") =
      .splitListing ("foo") ⟨"x86_64", false⟩
        (splitPkgs
          ⟨[⟨"x86_64", false⟩], [⟨"core", false, false⟩],
           [⟨"foo-b", "foo", ⟨"core", false, false⟩, ⟨"x86_64", false⟩⟩,
            ⟨"foo-a", "foo", ⟨"core", false, false⟩, ⟨"x86_64", false⟩⟩], []⟩
          ("foo") ⟨"core", false, false⟩ ⟨"x86_64", false⟩) ∧
    splitPkgs
      ⟨[⟨"x86_64", false⟩], [⟨"core", false, false⟩],
       [⟨"foo-b", "foo", ⟨"core", false, false⟩, ⟨"x86_64", false⟩⟩,
        ⟨"foo-a", "foo", ⟨"core", false, false⟩, ⟨"x86_64", false⟩⟩], []⟩
      ("foo") ⟨"core", false, false⟩ ⟨"x86_64", false⟩ =
      [⟨"foo-a", "foo", ⟨"core", false, false⟩, ⟨"x86_64", false⟩⟩,
       ⟨"foo-b", "foo", ⟨"core", false, false⟩, ⟨"x86_64", false⟩⟩] :=
  ⟨(c3_split_stage _ 0 _ _ _ ⟨"x86_64", false⟩ ⟨"core", false, false⟩
      (by decide) (by decide) (by decide) (by decide) (by decide)
      (Or.inr (by decide)) (by decide)).2.2.1
    ⟨by decide,
     ⟨⟨"foo-a", "foo", ⟨"core", false, false⟩, ⟨"x86_64", false⟩⟩,
      by decide, by decide⟩⟩,
   by decide⟩

/-- With a uniquely resolving architecture, `recently_removed_package`
is the `latest()`-lookup on the windowed history queryset. -/
theorem recently_removed_package_eq (db : DB) (nowT : Int)
    (name repoName archName : String) (a : Arch) (cutoff : Option Int)
    (hA : db.arches.filter (archNameMatch archName) = [a]) :
    recently_removed_package db nowT name repoName archName cutoff =
      match latestUpdate (updatesWindow db nowT name repoName a cutoff) with
      | some u => .ok (some (.removed u))
      | none => .ok none := by
  unfold recently_removed_package
  rw [djGet_of_filter_eq_single _ _ _ hA]

/-- When the split stage returns `None`, the fallback tail is decided by
the recently-removed stage. -/
theorem fallbackChain_eq_recently (db : DB) (nowT : Int)
    (name repoName archName : String)
    (hsplit : split_package_details db name repoName archName = .ok none) :
    fallbackChain db nowT name repoName archName =
      match recently_removed_package db nowT name repoName archName
          (some CUTOFF) with
      | .error o => o
      | .ok (some r) => r
      | .ok none => .notFound := by
  unfold fallbackChain
  rw [hsplit]

/-- C4: on reaching Stage 4, `details` returns `RecentlyRemoved` with a
latest-created record of the time-windowed history match set when that
set is non-empty, and `NotFound` when it is empty; the window keeps
exactly the records matching name exactly, repo case-insensitively and
arch in the requested-plus-agnostic set with `created ≥ now - 60`; and
passing no cutoff disables the time filter. -/
theorem c4_recently_removed_stage (db : DB) (nowT : Int)
    (name repoName archName : String) (a : Arch)
    (hn : name ≠ "") (hr : repoName ≠ "") (ha : archName ≠ "")
    (h1 : db.packages.filter (stage1Match name repoName archName) = [])
    (hA : db.arches.filter (archNameMatch archName) = [a])
    (h2 : a.agnostic = true ∨
      (db.packages.filter (agnosticMatch name repoName)).length ≠ 1)
    (hsplit : split_package_details db name repoName archName = .ok none) :
    (updatesWindow db nowT name repoName a (some CUTOFF) ≠ [] →
      ∃ u, details db nowT name repoName archName = .removed u ∧
        u ∈ updatesWindow db nowT name repoName a (some CUTOFF) ∧
        ∀ v ∈ updatesWindow db nowT name repoName a (some CUTOFF),
          v.created ≤ u.created) ∧
    (updatesWindow db nowT name repoName a (some CUTOFF) = [] →
      details db nowT name repoName archName = .notFound) ∧
    (∀ u, u ∈ updatesWindow db nowT name repoName a (some CUTOFF) ↔
      u ∈ db.updates ∧ u.pkgname = name ∧
      lowerStr u.repo.name = lowerStr repoName ∧
      (u.arch = a ∨ (u.arch ∈ db.arches ∧ u.arch.agnostic = true)) ∧
      nowT - CUTOFF ≤ u.created) ∧
    (db.updates.filter (updateMatch name repoName (archSet db a)) ≠ [] →
      ∃ u, recently_removed_package db nowT name repoName archName none =
        .ok (some (.removed u)) ∧
        u ∈ db.updates.filter (updateMatch name repoName (archSet db a)) ∧
        ∀ v ∈ db.updates.filter (updateMatch name repoName (archSet db a)),
          v.created ≤ u.created) := by
  have hfb := details_eq_fallbackChain db nowT name repoName archName a
    hn hr ha h1 hA h2
  refine ⟨?_, ?_, ?_, ?_⟩
  · intro hne
    obtain ⟨u, hu⟩ := latestUpdate_exists_of_ne_nil hne
    refine ⟨u, ?_, latestUpdate_mem hu, latestUpdate_maximal hu⟩
    rw [hfb, fallbackChain_eq_recently db nowT name repoName archName hsplit,
      recently_removed_package_eq db nowT name repoName archName a
        (some CUTOFF) hA, hu]
  · intro hemp
    rw [hfb, fallbackChain_eq_recently db nowT name repoName archName hsplit,
      recently_removed_package_eq db nowT name repoName archName a
        (some CUTOFF) hA, (latestUpdate_eq_none_iff _).mpr hemp]
  · intro u
    simp only [updatesWindow, List.mem_filter, updateMatch, archSet,
      Bool.and_eq_true, beq_iff_eq, List.contains_eq_any_beq,
      List.any_eq_true, List.mem_cons, decide_eq_true_eq, iexact,
      beq_iff_eq]
    constructor
    · rintro ⟨⟨hmem, ⟨hp, hrn⟩, x, hx, hbeq⟩, hc⟩
      have hx' : u.arch = x := by simpa using hbeq
      rcases hx with hx | hx
      · exact ⟨hmem, hp, hrn, Or.inl (hx' ▸ hx), hc⟩
      · exact ⟨hmem, hp, hrn, Or.inr ⟨hx' ▸ hx.1, hx' ▸ hx.2⟩, hc⟩
    · rintro ⟨hmem, hp, hrn, harch, hc⟩
      refine ⟨⟨hmem, ⟨hp, hrn⟩, u.arch, ?_, by simp⟩, hc⟩
      rcases harch with harch | harch
      · exact Or.inl harch
      · exact Or.inr ⟨harch.1, harch.2⟩
  · intro hne
    obtain ⟨u, hu⟩ := latestUpdate_exists_of_ne_nil (l := db.updates.filter
      (updateMatch name repoName (archSet db a))) hne
    refine ⟨u, ?_, latestUpdate_mem hu, latestUpdate_maximal hu⟩
    rw [recently_removed_package_eq db nowT name repoName archName a
      none hA]
    unfold updatesWindow
    rw [hu]

/-- Witness for C4: a record created 10 days ago (cutoff 60) yields the
removed page; with only a record created 90 days ago it is not found. -/
theorem c4_witness :
    (∃ u, details
        ⟨[⟨"x86_64", false⟩], [⟨"core", false, false⟩], [],
         [⟨"gone", ⟨"core", false, false⟩, ⟨"x86_64", false⟩, -10, 0⟩,
          ⟨"gone", ⟨"core", false, false⟩, ⟨"x86_64", false⟩, -90, 1⟩]⟩
        0 ("gone") ("core") ("x86_64") = .removed u ∧
      u ∈ updatesWindow
        ⟨[⟨"x86_64", false⟩], [⟨"core", false, false⟩], [],
         [⟨"gone", ⟨"core", false, false⟩, ⟨"x86_64", false⟩, -10, 0⟩,
          ⟨"gone", ⟨"core", false, false⟩, ⟨"x86_64", false⟩, -90, 1⟩]⟩
        0 ("gone") ("core") ⟨"x86_64", false⟩ (some CUTOFF) ∧
      ∀ v ∈ updatesWindow
        ⟨[⟨"x86_64", false⟩], [⟨"core", false, false⟩], [],
         [⟨"gone", ⟨"core", false, false⟩, ⟨"x86_64", false⟩, -10, 0⟩,
          ⟨"gone", ⟨"core", false, false⟩, ⟨"x86_64", false⟩, -90, 1⟩]⟩
        0 ("gone") ("core") ⟨"x86_64", false⟩ (some CUTOFF),
        v.created ≤ u.created) ∧
    details
      ⟨[⟨"x86_64", false⟩], [⟨"core", false, false⟩], [],
       [⟨"gone", ⟨"core", false, false⟩, ⟨"x86_64", false⟩, -90, 1⟩]⟩
      0 ("gone") ("core") ("x86_64") = .notFound :=
  ⟨(c4_recently_removed_stage _ 0 _ _ _ ⟨"x86_64", false⟩ (by decide)
      (by decide) (by decide) (by decide) (by decide) (Or.inr (by decide))
      (by rfl)).1 (by decide),
   (c4_recently_removed_stage _ 0 _ _ _ ⟨"x86_64", false⟩ (by decide)
      (by decide) (by decide) (by decide) (by decide) (Or.inr (by decide))
      (by rfl)).2.1 (by decide)⟩

/-- Counterexample to C8 as stated: with a valid architecture but a repo
name matching no repo row, Stage 3's `get_object_or_404(Repo, ...)`
raises its own 404 on missing data, so the Stage-4 history check is
never reached: the outcome is the Stage-3 repo 404, not the outcome the
Stage-4 tail would produce. -/
theorem c8_counterexample :
    details ⟨[⟨"x86_64", false⟩], [], [], []⟩ 0 ("pkg") ("core") ("x86_64") =
      .repoNotFound ∧
    (match recently_removed_package ⟨[⟨"x86_64", false⟩], [], [], []⟩ 0
        ("pkg") ("core") ("x86_64") (some CUTOFF) with
     | .error o => o
     | .ok (some r) => r
     | .ok none => .notFound) = .notFound ∧
    Outcome.repoNotFound ≠ Outcome.notFound := by
  refine ⟨by decide, by decide, by decide⟩

/-- C8 (amended): besides the Stage-2 architecture precondition, Stage 3
also raises a 404 when the requested repo name resolves to no repo; for
every complete key whose architecture and repo both resolve and whose
Stages 1-3 produce no outcome, the Stage-4 history check is reached and
decides the outcome, and `NotFound` arises exactly when the history
lookup is empty. -/
theorem c8_amended_reaches_history (db : DB) (nowT : Int)
    (name repoName archName : String) (a : Arch)
    (hn : name ≠ "") (hr : repoName ≠ "") (ha : archName ≠ "")
    (h1 : db.packages.filter (stage1Match name repoName archName) = [])
    (hA : db.arches.filter (archNameMatch archName) = [a])
    (h2 : a.agnostic = true ∨
      (db.packages.filter (agnosticMatch name repoName)).length ≠ 1)
    (hsplit : split_package_details db name repoName archName = .ok none) :
    details db nowT name repoName archName =
      (match recently_removed_package db nowT name repoName archName
          (some CUTOFF) with
       | .error o => o
       | .ok (some r) => r
       | .ok none => .notFound) ∧
    (details db nowT name repoName archName = .notFound ↔
      recently_removed_package db nowT name repoName archName (some CUTOFF) =
        .ok none) := by
  have hfb := details_eq_fallbackChain db nowT name repoName archName a
    hn hr ha h1 hA h2
  have htail := fallbackChain_eq_recently db nowT name repoName archName
    hsplit
  constructor
  · rw [hfb, htail]
  · rw [hfb, htail, recently_removed_package_eq db nowT name repoName
      archName a (some CUTOFF) hA]
    rcases hl : latestUpdate (updatesWindow db nowT name repoName a
      (some CUTOFF)) with _ | u
    · simp
    · simp

/-- Witness for C8's amended theorem: arch and repo resolve, Stages 1-3
find nothing, history holds a fresh record, and the outcome is that
record's removed page, decided by Stage 4. -/
theorem c8_witness :
    details
      ⟨[⟨"x86_64", false⟩], [⟨"core", false, false⟩], [],
       [⟨"pkg", ⟨"core", false, false⟩, ⟨"x86_64", false⟩, -5, 0⟩]⟩
      0 ("pkg") ("core") ("x86_64") =
      (match recently_removed_package
          ⟨[⟨"x86_64", false⟩], [⟨"core", false, false⟩], [],
           [⟨"pkg", ⟨"core", false, false⟩, ⟨"x86_64", false⟩, -5, 0⟩]⟩
          0 ("pkg") ("core") ("x86_64") (some CUTOFF) with
       | .error o => o
       | .ok (some r) => r
       | .ok none => .notFound) ∧
    (details
      ⟨[⟨"x86_64", false⟩], [⟨"core", false, false⟩], [],
       [⟨"pkg", ⟨"core", false, false⟩, ⟨"x86_64", false⟩, -5, 0⟩]⟩
      0 ("pkg") ("core") ("x86_64") = .notFound ↔
      recently_removed_package
        ⟨[⟨"x86_64", false⟩], [⟨"core", false, false⟩], [],
         [⟨"pkg", ⟨"core", false, false⟩, ⟨"x86_64", false⟩, -5, 0⟩]⟩
        0 ("pkg") ("core") ("x86_64") (some CUTOFF) = .ok none) :=
  c8_amended_reaches_history _ 0 _ _ _ ⟨"x86_64", false⟩ (by decide)
    (by decide) (by decide) (by decide) (by decide) (Or.inr (by decide))
    (by rfl)

/-- Only Stage 1 can produce a `Found` outcome: if `details` returns
`Found p`, the key was complete and the Stage-1 `get` returned `p`. -/
theorem details_found_inversion (db : DB) (nowT : Int)
    (name repoName archName : String) (p : Package)
    (h : details db nowT name repoName archName = .found p) :
    (name ≠ "" ∧ repoName ≠ "" ∧ archName ≠ "") ∧
    djGet db.packages (stage1Match name repoName archName) = .unique p := by
  by_cases hc : name ≠ "" ∧ repoName ≠ "" ∧ archName ≠ ""
  · refine ⟨hc, ?_⟩
    unfold details at h
    rw [if_pos hc] at h
    cases hget : djGet db.packages (stage1Match name repoName archName) with
    | unique pkg =>
      rw [hget] at h
      simp only [Outcome.found.injEq] at h
      rw [h]
    | multiple =>
      rw [hget] at h
      simp at h
    | missing =>
      rw [hget] at h
      exfalso
      cases hA : djGet db.arches (archNameMatch archName) with
      | missing => rw [hA] at h; simp at h
      | multiple => rw [hA] at h; simp at h
      | unique archObj =>
        rw [hA] at h
        by_cases hag : archObj.agnostic
        · simp only [hag, Bool.not_true, Bool.false_eq_true, if_false] at h
          exact fallbackChain_ne_found db nowT name repoName archName p h
        · simp only [Bool.not_eq_true] at hag
          simp only [hag, Bool.not_false, if_true] at h
          rcases hl : db.packages.filter (agnosticMatch name repoName) with
            _ | ⟨x, _ | ⟨y, t⟩⟩ <;> rw [hl] at h
          · exact fallbackChain_ne_found db nowT name repoName archName p h
          · simp at h
          · exact fallbackChain_ne_found db nowT name repoName archName p h
  · unfold details at h
    rw [if_neg hc] at h
    simp at h

/-- C9: if `details` returns `Found p`, then resolving the key built from
`p`'s own identity (its pkgname, its repo's name, its architecture's
name) again returns `Found p`. -/
theorem c9_roundtrip (db : DB) (nowT : Int)
    (name repoName archName : String) (p : Package)
    (h : details db nowT name repoName archName = .found p) :
    details db nowT p.pkgname p.repo.name p.arch.name = .found p := by
  obtain ⟨⟨hn, hr, ha⟩, hget⟩ :=
    details_found_inversion db nowT name repoName archName p h
  have hfil := filter_eq_single_of_djGet_unique hget
  have hp1 : stage1Match name repoName archName p = true := by
    have : p ∈ db.packages.filter (stage1Match name repoName archName) := by
      rw [hfil]; exact List.mem_singleton_self _
    exact (List.mem_filter.mp this).2
  simp only [stage1Match, Bool.and_eq_true, beq_iff_eq, iexact,
    beq_iff_eq] at hp1
  obtain ⟨⟨hname, hrepo⟩, harch⟩ := hp1
  have hpred : stage1Match p.pkgname p.repo.name p.arch.name =
      stage1Match name repoName archName := by
    funext x
    simp only [stage1Match, iexact, hname, hrepo, harch]
  have hn' : p.pkgname ≠ "" := by rw [hname]; exact hn
  have ha' : p.arch.name ≠ "" := by rw [harch]; exact ha
  have hr' : p.repo.name ≠ "" := by
    intro he
    apply hr
    rw [← lowerStr_eq_empty_iff, ← hrepo, he, lowerStr_empty]
  unfold details
  rw [if_pos ⟨hn', hr', ha'⟩, hpred, hget]

/-- Witness for C9: a lookup with odd casing finds the package; the key
rebuilt from the package's own identity finds it again. -/
theorem c9_witness :
    details
      ⟨[⟨"x86_64", false⟩], [⟨"core", false, false⟩],
       [⟨"foo", "foo", ⟨"core", false, false⟩, ⟨"x86_64", false⟩⟩], []⟩
      0 ("foo") ("core") ("x86_64") =
      .found ⟨"foo", "foo", ⟨"core", false, false⟩, ⟨"x86_64", false⟩⟩ :=
  c9_roundtrip
    ⟨[⟨"x86_64", false⟩], [⟨"core", false, false⟩],
     [⟨"foo", "foo", ⟨"core", false, false⟩, ⟨"x86_64", false⟩⟩], []⟩
    0 ("foo") ("CoRe") ("x86_64")
    ⟨"foo", "foo", ⟨"core", false, false⟩, ⟨"x86_64", false⟩⟩ (by decide)
